import Mathlib

/-!
Shallow embedding of the test harness in src/tester.py (a driver for an
instruction-level CPU model) and proofs about it.

Conventions of the embedding:
  * Python exceptions are modelled with Except: an uncaught ValueError is
    Except.error PyErr.valueError, the explicit exit() calls are
    Except.error PyErr.systemExit (or a dedicated terminal state in the
    step-loop model).
  * Character classes of the Python regular expression module are modelled
    over their ASCII fragments (the source only ever feeds ASCII test
    files through them).
  * The external simulator (pyrtl) is opaque to the harness; a run of the
    simulator is modelled as the list of per-cycle observations the
    harness makes of it: the program counter after each step and the
    memory updates recorded by the installed listeners during that step.
  * The Python standard-library decoding pipeline of the combined file
    format (base64 / UTF-8 / JSON) is external library code; it is
    modelled by its outcome (which error it raises, or the decoded
    address-to-word map).
-/

namespace Tester

/-- ASCII fragment of the character class \s of the Python re module. -/
def isPySpace (c : Char) : Bool :=
  c == ' ' || c == '\t' || c == '\n' || c == '\r' || c == '\x0b' || c == '\x0c'

/-- The character class [0-9a-fA-F] of the source regex, also the set of
digits accepted by Python int(s, 16). -/
def isHexDigitPy (c : Char) : Bool :=
  c.isDigit || ('a' ≤ c && c ≤ 'f') || ('A' ≤ c && c ≤ 'F')

/-- Numeric value of one hexadecimal digit. -/
def hexDigitVal (c : Char) : Nat :=
  if c.isDigit then c.toNat - ('0').toNat
  else if 'a' ≤ c && c ≤ 'f' then c.toNat - ('a').toNat + 10
  else c.toNat - ('A').toNat + 10

/-- Value of a list of decimal digits (most significant first). -/
def decVal (cs : List Char) : Nat :=
  cs.foldl (fun a c => 10 * a + (c.toNat - ('0').toNat)) 0

/-- Value of a list of hexadecimal digits (most significant first). -/
def hexVal (cs : List Char) : Nat :=
  cs.foldl (fun a c => 16 * a + hexDigitVal c) 0

/-- Drop leading Python whitespace, as the regex \s* does. -/
def dropWs (cs : List Char) : List Char := cs.dropWhile isPySpace

/-- Drop trailing Python whitespace. -/
def trimTrailingWs (cs : List Char) : List Char :=
  (cs.reverse.dropWhile isPySpace).reverse

/-- Whether the second character list begins with the first (Python
str.startswith, spelt out on characters). -/
def charsPre : List Char → List Char → Bool
  | [], _ => true
  | _ :: _, [] => false
  | p :: ps, c :: cs => c == p && charsPre ps cs

/-- Python str.startswith. -/
def pyStartsWith (s pre : String) : Bool := charsPre pre.data s.data

/-- Python str.endswith. -/
def pyEndsWith (s suf : String) : Bool := charsPre suf.data.reverse s.data.reverse

/-- Match a literal sequence of characters, returning the rest of the
input on success. -/
def lit : List Char → List Char → Option (List Char)
  | [], rest => some rest
  | p :: ps, c :: cs => if c = p then lit ps cs else none
  | _ :: _, [] => none

/-- The two memory-block names the assertion grammar accepts. -/
inductive MemBlock
  | rf
  | d_mem
deriving DecidableEq, Repr

/-- Match the regex alternation (rf|d_mem). -/
def matchBlock : List Char → Option (MemBlock × List Char)
  | 'r' :: 'f' :: rest => some (MemBlock.rf, rest)
  | 'd' :: '_' :: 'm' :: 'e' :: 'm' :: rest => some (MemBlock.d_mem, rest)
  | _ => none

/-- Match the first alternative -?0[xX][0-9a-fA-F]+ of the number
sub-pattern of ASSERT_REGEX, returning the matched characters and the
rest of the input. -/
def matchNumHex (cs : List Char) : Option (List Char × List Char) :=
  match cs with
  | '-' :: '0' :: x :: r =>
    if x = 'x' ∨ x = 'X' then
      match r.span isHexDigitPy with
      | ([], _) => none
      | (ds, rest) => some ('-' :: '0' :: x :: ds, rest)
    else none
  | '0' :: x :: r =>
    if x = 'x' ∨ x = 'X' then
      match r.span isHexDigitPy with
      | ([], _) => none
      | (ds, rest) => some ('0' :: x :: ds, rest)
    else none
  | _ => none

/-- Match the second alternative -?\d+ of the number sub-pattern
(ASCII digits). -/
def matchNumDec (cs : List Char) : Option (List Char × List Char) :=
  match cs with
  | '-' :: r =>
    match r.span Char.isDigit with
    | ([], _) => none
    | (ds, rest) => some ('-' :: ds, rest)
  | r =>
    match r.span Char.isDigit with
    | ([], _) => none
    | (ds, rest) => some (ds, rest)

/-- Match the number sub-pattern (-?0[xX][0-9a-fA-F]+|-?\d+).  Both
alternatives are greedy, and every context in which it occurs in
ASSERT_REGEX is followed by a delimiter outside the digit classes, so
first-alternative-first maximal munch coincides with the regex engine. -/
def matchNum (cs : List Char) : Option (List Char × List Char) :=
  match matchNumHex cs with
  | some r => some r
  | none => matchNumDec cs

/-- The operator class ([&|^]). -/
def isOpChar (c : Char) : Bool := c == '&' || c == '|' || c == '^'

/-- Match \s?([&|^]): at most one whitespace character, then one
operator character. -/
def matchOpChar : List Char → Option (Char × List Char)
  | c1 :: c2 :: rest =>
    if isPySpace c1 && isOpChar c2 then some (c2, rest)
    else if isOpChar c1 then some (c1, c2 :: rest) else none
  | c1 :: rest => if isOpChar c1 then some (c1, rest) else none
  | [] => none

/-- The capture groups of a successful ASSERT_REGEX.fullmatch: the block
name, the index and value tokens, and the optional operator clause
(operator character plus operand token). -/
structure AssertMatch where
  block : MemBlock
  indexStr : List Char
  valueStr : List Char
  opClause : Option (Char × List Char)
deriving DecidableEq, Repr

/-- ASSERT_REGEX.fullmatch over a character list.  The regex of the
source (tester.py line 8) is

  assert\(\s*sim.inspect_mem\((rf|d_mem)\)\[(-?0[xX][0-9a-fA-F]+|-?\d+)\]
  \s*==\s*(-?0[xX][0-9a-fA-F]+|-?\d+)(?:\s?([&|^])\s*(-?0[xX][0-9a-fA-F]+|-?\d+))?\s*\)

Note the dot after sim is unescaped in the source and therefore matches
any single character other than a newline.  The optional operator-clause
group backtracks to the empty match when its tail fails, which is what
the fallback to the pre-clause rest below implements. -/
def matchAssertCore (cs : List Char) : Option AssertMatch :=
  match lit (("assert(").data) cs with
  | none => none
  | some r1 =>
  match lit (("sim").data) (dropWs r1) with
  | none => none
  | some r2 =>
  match r2 with
  | [] => none
  | dotc :: r3 =>
  if dotc = '\n' then none else
  match lit (("inspect_mem(").data) r3 with
  | none => none
  | some r4 =>
  match matchBlock r4 with
  | none => none
  | some (b, r5) =>
  match lit ((")[").data) r5 with
  | none => none
  | some r6 =>
  match matchNum r6 with
  | none => none
  | some (idx, r7) =>
  match lit (("]").data) r7 with
  | none => none
  | some r8 =>
  match lit (("==").data) (dropWs r8) with
  | none => none
  | some r9 =>
  match matchNum (dropWs r9) with
  | none => none
  | some (v, r10) =>
  let clause : Option (Char × List Char) × List Char :=
    match matchOpChar r10 with
    | some (op, r11) =>
      match matchNum (dropWs r11) with
      | some (operand, r12) => (some (op, operand), r12)
      | none => (none, r10)
    | none => (none, r10)
  match lit ((")").data) (dropWs clause.2) with
  | none => none
  | some r13 =>
  if r13 = [] then some ⟨b, idx, v, clause.1⟩ else none

/-- ASSERT_REGEX.fullmatch on a string. -/
def matchAssert (s : String) : Option AssertMatch :=
  matchAssertCore s.data

/-- Python int(s) with base 10: optional surrounding whitespace, an
optional sign, then one or more decimal digits.  None models ValueError. -/
def pyIntDec (cs : List Char) : Option Int :=
  let t := trimTrailingWs (cs.dropWhile isPySpace)
  match t with
  | '-' :: ds =>
    if ds.isEmpty || !(ds.all Char.isDigit) then none
    else some (-(decVal ds : Int))
  | '+' :: ds =>
    if ds.isEmpty || !(ds.all Char.isDigit) then none
    else some ((decVal ds : Int))
  | ds =>
    if ds.isEmpty || !(ds.all Char.isDigit) then none
    else some ((decVal ds : Int))

/-- Python int(s, 16): optional surrounding whitespace, an optional
sign, an optional 0x/0X prefix, then one or more hex digits. -/
def pyIntHex (cs : List Char) : Option Int :=
  let t := trimTrailingWs (cs.dropWhile isPySpace)
  let signed : Bool × List Char :=
    match t with
    | '-' :: r => (true, r)
    | '+' :: r => (false, r)
    | r => (false, r)
  let core : List Char :=
    match signed.2 with
    | '0' :: 'x' :: r => r
    | '0' :: 'X' :: r => r
    | r => r
  if core.isEmpty || !(core.all isHexDigitPy) then none
  else if signed.1 then some (-(hexVal core : Int)) else some ((hexVal core : Int))

/-- tester.py int_or_hex: route to int(s, 16) only when the string
starts with the lowercase or uppercase 0x prefix (a leading minus sign
defeats the test and sends the string to base-10 int, where a hex
literal raises ValueError). -/
def int_or_hex (s : String) : Option Int :=
  if pyStartsWith s ("0x") || pyStartsWith s ("0X") then pyIntHex s.data
  else pyIntDec s.data

/-- Bitwise and with Python arbitrary-precision two's-complement
semantics (negSucc n is the complement of n). -/
def pyAnd : Int → Int → Int
  | Int.ofNat m, Int.ofNat n => Int.ofNat (Nat.land m n)
  | Int.ofNat m, Int.negSucc n => Int.ofNat (Nat.bitwise (fun a b => a && !b) m n)
  | Int.negSucc m, Int.ofNat n => Int.ofNat (Nat.bitwise (fun a b => a && !b) n m)
  | Int.negSucc m, Int.negSucc n => Int.negSucc (Nat.lor m n)

/-- Bitwise or with Python two's-complement semantics. -/
def pyOr : Int → Int → Int
  | Int.ofNat m, Int.ofNat n => Int.ofNat (Nat.lor m n)
  | Int.ofNat m, Int.negSucc n => Int.negSucc (Nat.bitwise (fun a b => a && !b) n m)
  | Int.negSucc m, Int.ofNat n => Int.negSucc (Nat.bitwise (fun a b => a && !b) m n)
  | Int.negSucc m, Int.negSucc n => Int.negSucc (Nat.land m n)

/-- Bitwise xor with Python two's-complement semantics. -/
def pyXor : Int → Int → Int
  | Int.ofNat m, Int.ofNat n => Int.ofNat (Nat.xor m n)
  | Int.ofNat m, Int.negSucc n => Int.negSucc (Nat.xor m n)
  | Int.negSucc m, Int.ofNat n => Int.negSucc (Nat.xor m n)
  | Int.negSucc m, Int.negSucc n => Int.ofNat (Nat.xor m n)

/-- Uncaught Python exceptions of the harness. -/
inductive PyErr
  | valueError
  | systemExit
deriving DecidableEq, Repr

/-- A parsed assertion: the tagged dictionary parse_assertion returns.
The valid variant keeps the matched block, the parsed index, the final
(possibly operator-folded) expected value, and the raw text; the invalid
variant keeps only the raw text. -/
inductive AResult
  | valid (mem_block : MemBlock) (index : Int) (value : Int) (str : String)
  | invalid (str : String)
deriving DecidableEq, Repr

/-- True on the valid variant. -/
def AResult.isValid : AResult → Bool
  | AResult.valid _ _ _ _ => true
  | AResult.invalid _ => false

/-- tester.py parse_assertion (lines 113-141).  A failed fullmatch
returns the invalid result carrying the raw text; a successful match
parses index and value with int_or_hex (whose ValueError propagates) and
folds the optional operator clause into the value.  The unreachable
unknown-operator branch calls exit(). -/
def parse_assertion (stmt : String) : Except PyErr AResult :=
  match matchAssert stmt with
  | none => Except.ok (AResult.invalid stmt)
  | some m =>
    match int_or_hex (String.mk m.indexStr) with
    | none => Except.error PyErr.valueError
    | some index =>
    match int_or_hex (String.mk m.valueStr) with
    | none => Except.error PyErr.valueError
    | some value =>
    match m.opClause with
    | none => Except.ok (AResult.valid m.block index value stmt)
    | some (op, operandStr) =>
      match int_or_hex (String.mk operandStr) with
      | none => Except.error PyErr.valueError
      | some other =>
        if op = '&' then Except.ok (AResult.valid m.block index (pyAnd value other) stmt)
        else if op = '|' then Except.ok (AResult.valid m.block index (pyOr value other) stmt)
        else if op = '^' then Except.ok (AResult.valid m.block index (pyXor value other) stmt)
        else Except.error PyErr.systemExit

/-- Python str.strip(): remove leading and trailing whitespace. -/
def pyStrip (s : String) : String :=
  String.mk (trimTrailingWs (s.data.dropWhile isPySpace))

/-- Python line.lstrip with the single argument consisting of the hash
character: drop every leading hash character. -/
def lstripHash (s : String) : String :=
  String.mk (s.data.dropWhile (fun c => c == '#'))

/-- The assertion-line test of read_tests (line 211): the stripped line
begins with the assert opener, optionally behind one comment hash. -/
def isAssertLine (l : String) : Bool :=
  pyStartsWith l ("#assert(") || pyStartsWith l ("assert(")

/-- The assertion-collection loop of read_tests (lines 208-213): every
assertion line is parsed in source order and the result - valid or
invalid - is appended; a ValueError escaping parse_assertion propagates. -/
def collectAssertions : List String → Except PyErr (List AResult)
  | [] => Except.ok []
  | l :: ls =>
    if isAssertLine l then
      match parse_assertion (lstripHash l) with
      | Except.error e => Except.error e
      | Except.ok a =>
        match collectAssertions ls with
        | Except.error e => Except.error e
        | Except.ok rs => Except.ok (a :: rs)
    else collectAssertions ls

/-- Specification-side restatement of the collection loop: parse exactly
the assertion lines, in source order. -/
def parseAll : List String → Except PyErr (List AResult)
  | [] => Except.ok []
  | l :: ls =>
    match parse_assertion (lstripHash l) with
    | Except.error e => Except.error e
    | Except.ok a =>
      match parseAll ls with
      | Except.error e => Except.error e
      | Except.ok rs => Except.ok (a :: rs)

/-- One assembly line of a test: raw text, the section it belongs to and
its offset within that section.  The Python dictionary keys are str,
section and offset; section is a Lean keyword, hence sectionName. -/
structure AsmLine where
  str : String
  sectionName : String
  offset : Nat
deriving DecidableEq, Repr

/-- The assembly-parsing loop of read_tests (lines 218-231), over the
already stripped lines.  Python initialises section to None and treats
both None and the empty string as falsy in the guard that drops content
lines appearing before any section header; the embedding conflates the
two as the empty string (stored sections always pass the guard, so only
truthiness is observable). -/
def parseAssemblyAux : List String → String → Nat → List AsmLine
  | [], _, _ => []
  | l :: ls, sect, off =>
    if l.data.isEmpty || pyStartsWith l ("#") then parseAssemblyAux ls sect off
    else if pyEndsWith l (":") then
      parseAssemblyAux ls (pyStrip (String.mk l.data.dropLast)) 0
    else if pyStartsWith l (".") then parseAssemblyAux ls sect off
    else if sect.data.isEmpty then parseAssemblyAux ls sect off
    else ⟨l, sect, off⟩ :: parseAssemblyAux ls sect (off + 1)

/-- Assembly parse of a full info file. -/
def parseAssembly (ls : List String) : List AsmLine := parseAssemblyAux ls (("")) 0

/-- Python int of the string 0x ++ line with base 16, as applied to one
line of a multi-file instruction file (line 170).  The prefix is already
in place, so the line may carry only trailing whitespace around its hex
digits; anything else (including a sign, a second 0x, or an empty rest)
raises ValueError. -/
def instLineValue (line : String) : Option Nat :=
  let t := trimTrailingWs line.data
  if t.isEmpty || !(t.all isHexDigitPy) then none else some (hexVal t)

/-- The multi-file instruction loop (lines 165-174): skip comment lines,
parse the rest as hex words; the first failure abandons the whole file
(the try block wraps the loop). -/
def parseInstLines : List String → Option (List Nat)
  | [] => some []
  | l :: ls =>
    if pyStartsWith l ("#") then parseInstLines ls
    else
      match instLineValue l with
      | none => none
      | some v =>
        match parseInstLines ls with
        | none => none
        | some vs => some (v :: vs)

/-- Outcome of the base64 / UTF-8 / JSON decode pipeline of the combined
format (lines 181-194).  The pipeline is Python standard-library code,
external to the harness, so it is modelled by its outcome: which of the
three caught exception classes it raises, or the decoded
address-to-word map (keys are instruction addresses). -/
inductive DecodeOutcome
  | b64Error
  | unicodeError
  | jsonError
  | ok (entries : List (Nat × Nat))
deriving DecidableEq, Repr

/-- Where a test case gets its machine code from: a separate .txt of hex
words, or the decoded first-line map of a combined .s file. -/
inductive InstSource
  | multifile (instLines : List String)
  | combined (decoded : DecodeOutcome)
deriving DecidableEq, Repr

/-- One test group as produced by parse_args, with the referenced file
contents inlined (the loader reads them without further checks). -/
structure TestGroup where
  name : String
  source : InstSource
  infoLines : List String
deriving DecidableEq, Repr

/-- A loaded test case. -/
structure TestCase where
  name : String
  instructions : List Nat
  assembly : List AsmLine
  assertions : List AResult
  out_of_bounds : Nat
deriving DecidableEq, Repr

/-- Python max over the keys of a non-empty decoded instruction map
(line 197); 0 is an identity for max over Nat, so the fold agrees with
Python max on every non-empty list. -/
def maxKey (entries : List (Nat × Nat)) : Nat :=
  (entries.map Prod.fst).foldl Nat.max 0

/-- Lines 197-199: build a zero-initialised list one longer than the
greatest address and write every mapped word at its address. -/
def combinedInstructions (entries : List (Nat × Nat)) : List Nat :=
  entries.foldl (fun l av => l.set av.1 av.2) (List.replicate (maxKey entries + 1) 0)

/-- Instruction extraction for one group (lines 159-200).  Except.ok none
means the test is skipped with a diagnostic; the empty combined map
reaches Python max() of an empty sequence, whose ValueError is not
caught. -/
def loadInstructions : InstSource → Except PyErr (Option (List Nat))
  | InstSource.multifile lines =>
    match parseInstLines lines with
    | none => Except.ok none
    | some instrs => if instrs.isEmpty then Except.ok none else Except.ok (some instrs)
  | InstSource.combined d =>
    match d with
    | DecodeOutcome.b64Error => Except.ok none
    | DecodeOutcome.unicodeError => Except.ok none
    | DecodeOutcome.jsonError => Except.ok none
    | DecodeOutcome.ok entries =>
      if entries.isEmpty then Except.error PyErr.valueError
      else Except.ok (some (combinedInstructions entries))

/-- The synthetic assembly line appended after every program. -/
def nopAsmLine : AsmLine := ⟨("addi $zero, $zero, 0"), ("_out_of_bounds"), 0⟩

/-- Post-load augmentation (lines 240-244): record the real program end
as out_of_bounds, then append the synthetic no-op word 0x20000000
(addi zero zero 0) and the synthetic assembly line. -/
def augment (name : String) (instrs : List Nat) (assembly : List AsmLine)
    (asserts : List AResult) : TestCase :=
  { name := name
    instructions := instrs ++ [0x20000000]
    assembly := assembly ++ [nopAsmLine]
    assertions := asserts
    out_of_bounds := instrs.length }

/-- Load one test group: instructions, then assertions, then assembly,
then augmentation.  Except.ok none is a skipped test. -/
def loadGroup (g : TestGroup) : Except PyErr (Option TestCase) :=
  match loadInstructions g.source with
  | Except.error e => Except.error e
  | Except.ok none => Except.ok none
  | Except.ok (some instrs) =>
    match collectAssertions (g.infoLines.map pyStrip) with
    | Except.error e => Except.error e
    | Except.ok asserts =>
      Except.ok (some (augment g.name instrs (parseAssembly (g.infoLines.map pyStrip)) asserts))

/-- tester.py read_tests (lines 144-255): load the groups in order,
dropping skipped tests; an uncaught exception aborts the whole batch. -/
def read_tests : List TestGroup → Except PyErr (List TestCase)
  | [] => Except.ok []
  | g :: gs =>
    match loadGroup g with
    | Except.error e => Except.error e
    | Except.ok none => read_tests gs
    | Except.ok (some t) =>
      match read_tests gs with
      | Except.error e => Except.error e
      | Except.ok ts => Except.ok (t :: ts)

/-- Result of invoking one listener callback: normal return, or a raised
exception (whose traceback text the harness prints and discards). -/
inductive LOutcome
  | ok
  | exn (msg : String)
deriving DecidableEq, Repr

/-- Plain dict lookup (dict.get / dict.getitem): the value at the key,
if present; the caller turns the missing case into KeyError or a
default. -/
def dictGet [DecidableEq α] (d : List (α × β)) (k : α) : Option β :=
  (d.find? (fun kv => decide (kv.1 = k))).map Prod.snd

/-- Plain dict store (dict.setitem): replace the value in place if the
key is present, else append the new binding (Python dicts keep
insertion order). -/
def dictInsert [DecidableEq α] (d : List (α × β)) (k : α) (v : β) : List (α × β) :=
  if d.any (fun kv => decide (kv.1 = k)) then
    d.map (fun kv => if kv.1 = k then (k, v) else kv)
  else d ++ [(k, v)]

/-- tester.py DictWatcher (lines 18-53): a dict subtype carrying
getitem and setitem listener callbacks. -/
structure DictWatcher (α β : Type) where
  store : List (α × β)
  getitemListeners : List (α → LOutcome)
  setitemListeners : List (α → β → Option β → LOutcome)

/-- One primitive effect of a DictWatcher write: the store into the
underlying dict, or the invocation of one listener (with its outcome). -/
inductive WAction (α β : Type)
  | stored (k : α) (v : β)
  | notified (r : LOutcome)
deriving DecidableEq, Repr

/-- DictWatcher.getitem: fire every getitem listener (swallowing
exceptions), then delegate to dict.getitem.  Returns the delegated
value and the listener outcomes. -/
def DictWatcher.getitem [DecidableEq α] (w : DictWatcher α β) (k : α) :
    Option β × List LOutcome :=
  (dictGet w.store k, w.getitemListeners.map (fun f => f k))

/-- DictWatcher.setitem: read the old value with dict.get, store the new
value with dict.setitem, then fire every setitem listener with
(key, value, old value), swallowing exceptions.  Returns the new watcher
and, in order, the effects performed. -/
def DictWatcher.setitem [DecidableEq α] (w : DictWatcher α β) (k : α) (v : β) :
    DictWatcher α β × List (WAction α β) :=
  let old := dictGet w.store k
  ({ w with store := dictInsert w.store k v },
   WAction.stored k v :: w.setitemListeners.map (fun f => WAction.notified (f k v old)))

/-- Lookup in a final memory store with a (possibly negative) assertion
index: dict keys written during a run are addresses (Nat), so a negative
index can never hit. -/
def storeLookup (st : List (Nat × Nat)) (i : Int) : Option Nat :=
  (st.find? (fun kv => decide ((kv.1 : Int) = i))).map Prod.snd

/-- A final observed-storage state for the two assertable blocks. -/
def FinalStore : Type := MemBlock → List (Nat × Nat)

/-- Whether one assertion evaluates to a pass against a final store
(lines 372-380): resolve the observed value at (block, index) with
default 0, and compare with the folded expected value.  Invalid
assertions never pass. -/
def assertionPasses (store : FinalStore) : AResult → Bool
  | AResult.valid b i v _ => decide (((storeLookup (store b) i).getD 0 : Int) = v)
  | AResult.invalid _ => false

/-- The per-assertion result mark printed by the evaluator: the bad
assertion mark for invalid, OK for a pass, X for a failure. -/
def resultMark (store : FinalStore) : AResult → String
  | AResult.valid b i v _ =>
    if ((storeLookup (store b) i).getD 0 : Int) = v then ("OK") else ("X ")
  | AResult.invalid _ => ("!!")

/-- One iteration of the counting loop of the evaluator (lines
364-385): an invalid assertion touches neither counter; a valid one
increments num_valid, and num_passed as well when it passes. -/
def evalStep (store : FinalStore) (acc : Nat × Nat) (a : AResult) : Nat × Nat :=
  match a with
  | AResult.invalid _ => acc
  | AResult.valid b i v _ =>
    if ((storeLookup (store b) i).getD 0 : Int) = v then (acc.1 + 1, acc.2 + 1)
    else (acc.1, acc.2 + 1)

/-- The counting loop of the evaluator: fold (num_passed, num_valid)
over the assertions. -/
def evalCounts (store : FinalStore) (asserts : List AResult) : Nat × Nat :=
  asserts.foldl (evalStep store) (0, 0)

/-- The summary printed after the per-assertion lines (lines 388-404). -/
inductive Summary
  | noAssertions
  | noValidAssertions
  | percent (value : ℚ) (numInvalid : Nat) (congrats : Bool)
deriving DecidableEq, Repr

/-- Summary selection: with no valid assertion, an error message that
distinguishes an empty assertion list from an all-malformed one;
otherwise the percentage 100 * passed / valid, the count of invalid
assertions, and whether the distinct all-pass congratulation fires
(no invalid assertion and every assertion passed). -/
def summarize (passed valid total : Nat) : Summary :=
  if valid = 0 then
    if total = 0 then Summary.noAssertions else Summary.noValidAssertions
  else
    Summary.percent ((100 * (passed : ℚ)) / (valid : ℚ)) (total - valid)
      (decide (total - valid = 0) && decide (passed = total))

/-- The full evaluation report of one run. -/
structure EvalReport where
  marks : List String
  passed : Nat
  valid : Nat
  total : Nat
  summary : Summary
deriving DecidableEq, Repr

/-- The assertion evaluator and reporter (lines 357-405). -/
def evaluateAssertions (store : FinalStore) (asserts : List AResult) : EvalReport :=
  let counts := evalCounts store asserts
  { marks := asserts.map (resultMark store)
    passed := counts.1
    valid := counts.2
    total := asserts.length
    summary := summarize counts.1 counts.2 asserts.length }

/-- The three watched memory regions of a run, in the drain order of the
mem_updates dictionary (its insertion order, line 268). -/
inductive BlockName
  | i_mem
  | d_mem
  | rf
deriving DecidableEq, Repr

/-- One recorded memory update: the (address, new value, old value)
triple appended by the setitem listener; the old value is None when the
address had never been written. -/
structure MemUpdate where
  addr : Nat
  value : Nat
  old : Option Nat
deriving DecidableEq, Repr

/-- Whether an update is a real write: line 331 compares the new value
with the old one, with None coerced to 0 (old or 0). -/
def changedUpdate (u : MemUpdate) : Bool := u.value != u.old.getD 0

/-- The observations the harness makes of one successful sim.step call:
the program counter probed afterwards, and the updates recorded in each
region's queue while the simulator stepped. -/
structure SimStep where
  pc : Nat
  imemUps : List MemUpdate
  dmemUps : List MemUpdate
  rfUps : List MemUpdate
deriving DecidableEq, Repr

/-- Console output of the step loop that the claims refer to. -/
inductive Event
  | traceLine (pc : Nat) (line : AsmLine) (word : Nat)
  | updateMsg (b : BlockName) (addr value old : Nat)
  | boundsMsg
  | boundsWarn
  | loopMsg
  | imemErrorMsg (addr value : Nat)
deriving DecidableEq, Repr

/-- How the step loop ends, from the harness's point of view. -/
inductive LoopRes
  | bounds (warned : Bool)
  | loop
  | imemFatal
  | crashed
  | outOfSteps
deriving DecidableEq, Repr

/-- Draining the update queues of one step (lines 318-341): the i_mem
queue is drained first and any update in it is fatal; then d_mem and rf
updates are printed in queue order (the register-file message indexes
the 32-entry REGISTER_NAMES table, so a register address of 32 or more
raises an uncaught IndexError); a real write is any drained update whose
new value differs from its old one.  Partial console output before the
IndexError is not tracked. -/
inductive DrainRes
  | fatal (addr value : Nat)
  | crash
  | ok (evs : List Event) (anyWrites : Bool)
deriving DecidableEq, Repr

/-- Drain the three queues of one step. -/
def drainStep (s : SimStep) : DrainRes :=
  match s.imemUps with
  | u :: _ => DrainRes.fatal u.addr u.value
  | [] =>
    if s.rfUps.any (fun u => 32 ≤ u.addr) then DrainRes.crash
    else
      DrainRes.ok
        (s.dmemUps.map (fun u => Event.updateMsg BlockName.d_mem u.addr u.value (u.old.getD 0))
          ++ s.rfUps.map (fun u => Event.updateMsg BlockName.rf u.addr u.value (u.old.getD 0)))
        ((s.dmemUps ++ s.rfUps).any changedUpdate)

/-- The static data of one run: the fields of the test the loop reads. -/
structure RunCfg where
  out_of_bounds : Nat
  instructions : List Nat
  assembly : List AsmLine
  assertions : List AResult
deriving DecidableEq, Repr

/-- The bounds-halt console output (lines 309-311): the exit message,
plus a warning when the pc is strictly past the sentinel. -/
def boundsEvents (warned : Bool) : List Event :=
  if warned then [Event.boundsMsg, Event.boundsWarn] else [Event.boundsMsg]

/-- The step loop (lines 297-350), driven by the list of per-cycle
observations of the external simulator.  Per iteration: bounds check
first (a halt there emits nothing else and consults nothing else), then
the trace line (indexing assembly and instructions at pc, an uncaught
IndexError when either is too short), then the queue drain, then the
loop-detection heuristic on the set of program counters seen since the
last real write.  Returns the loop result, the console events, and the
number of sim.step calls made. -/
def runFrom (cfg : RunCfg) : List SimStep → List Nat → LoopRes × List Event × Nat
  | [], _ => (LoopRes.outOfSteps, [], 0)
  | s :: rest, seen =>
    if cfg.out_of_bounds ≤ s.pc then
      (LoopRes.bounds (decide (cfg.out_of_bounds < s.pc)),
       boundsEvents (decide (cfg.out_of_bounds < s.pc)), 1)
    else
      match cfg.assembly[s.pc]?, cfg.instructions[s.pc]? with
      | some line, some word =>
        let tev := Event.traceLine s.pc line word
        match drainStep s with
        | DrainRes.fatal a v => (LoopRes.imemFatal, [tev, Event.imemErrorMsg a v], 1)
        | DrainRes.crash => (LoopRes.crashed, [tev], 1)
        | DrainRes.ok evs aw =>
          if s.pc ∈ seen then (LoopRes.loop, tev :: (evs ++ [Event.loopMsg]), 1)
          else
            let r := runFrom cfg rest (if aw then [] else s.pc :: seen)
            (r.1, tev :: (evs ++ r.2.1), r.2.2 + 1)
      | _, _ => (LoopRes.crashed, [], 1)

/-- Terminal states of one run. -/
inductive RunState
  | running
  | haltedBounds
  | haltedLoop
  | haltedError
  | crashed
deriving DecidableEq, Repr

/-- Apply the writes of a list of updates to a store (the DictWatcher
dict receives every write during sim.step, drained or not). -/
def applyUpdates (st : List (Nat × Nat)) (ups : List MemUpdate) : List (Nat × Nat) :=
  ups.foldl (fun st u => dictInsert st u.addr u.value) st

/-- The final contents of the two assertable stores after the executed
prefix of a run: every write of every executed step, applied in order. -/
def storeAfter (steps : List SimStep) : FinalStore := fun b =>
  steps.foldl
    (fun st s =>
      applyUpdates st (match b with | MemBlock.rf => s.rfUps | MemBlock.d_mem => s.dmemUps))
    []

/-- tester.py run_test (lines 258-405) for one test against one
simulator behaviour: run the step loop, then evaluate the assertions
against the final storage - except that the fatal i_mem protocol
violation calls exit() and an IndexError propagates, so neither ever
reaches evaluation. -/
def run_test (cfg : RunCfg) (steps : List SimStep) : RunState × Option EvalReport :=
  let r := runFrom cfg steps []
  match r.1 with
  | LoopRes.bounds _ =>
    (RunState.haltedBounds,
     some (evaluateAssertions (storeAfter (steps.take r.2.2)) cfg.assertions))
  | LoopRes.loop =>
    (RunState.haltedLoop,
     some (evaluateAssertions (storeAfter (steps.take r.2.2)) cfg.assertions))
  | LoopRes.imemFatal => (RunState.haltedError, none)
  | LoopRes.crashed => (RunState.crashed, none)
  | LoopRes.outOfSteps => (RunState.running, none)

/-! Concrete fixtures used by the concrete parts of the claims. -/

/-- A well-formed multi-file test group: one zero instruction word, one
section with one assembly line, no assertions. -/
def gGood : TestGroup :=
  ⟨("good"), InstSource.multifile [("00000000")], [("main:"), ("nop")]⟩

/-- A second well-formed group, to sit behind a failing one. -/
def gGood2 : TestGroup :=
  ⟨("good2"), InstSource.multifile [("00000000")], [("main:"), ("nop")]⟩

/-- The test case gGood loads to. -/
def tGood : TestCase :=
  { name := ("good")
    instructions := [0, 0x20000000]
    assembly := [⟨("nop"), ("main"), 0⟩, nopAsmLine]
    assertions := []
    out_of_bounds := 1 }

/-- A multi-file group whose instruction text fails to parse as hex. -/
def gHexBad : TestGroup := ⟨("bad"), InstSource.multifile [("zz")], []⟩

/-- A combined-format group whose first line decodes to the empty JSON
instruction map (for instance the line consisting of the hash character
followed by the base64 text e30=). -/
def gEmptyMap : TestGroup := ⟨("empty"), InstSource.combined (DecodeOutcome.ok []), []⟩

/-- A placeholder assembly line for run fixtures. -/
def fixAsm : AsmLine := ⟨("x"), ("main"), 0⟩

/-- Run fixture for the loop-detection claim: three instructions,
out_of_bounds 3. -/
def loopCfg : RunCfg := ⟨3, [0, 0, 0], List.replicate 3 fixAsm, []⟩

/-- A register-file update queue that is a real write exactly when the
flag is set. -/
def wUps (w : Bool) : List MemUpdate := if w then [⟨0, 1, none⟩] else []

/-- The pc sequence 0,1,2,1,2,1,2 with arbitrary real-write flags on the
first three cycles and no writes afterwards. -/
def loopSteps (w0 w1 w2 : Bool) : List SimStep :=
  [⟨0, [], [], wUps w0⟩, ⟨1, [], [], wUps w1⟩, ⟨2, [], [], wUps w2⟩,
   ⟨1, [], [], []⟩, ⟨2, [], [], []⟩, ⟨1, [], [], []⟩, ⟨2, [], [], []⟩]

/-- Run fixture for the bounds claim: a program of length 3 plus the
synthetic no-op, out_of_bounds 3, one trivially passing assertion. -/
def boundsCfg : RunCfg :=
  ⟨3, [1, 2, 3, 0x20000000], List.replicate 4 fixAsm,
   [AResult.valid MemBlock.rf 0 0 (("a"))]⟩

/-- The straight-line pc sequence 0,1,2,3 with no writes. -/
def boundsSteps : List SimStep :=
  [⟨0, [], [], []⟩, ⟨1, [], [], []⟩, ⟨2, [], [], []⟩, ⟨3, [], [], []⟩]

/-- A step at which the pc reaches the sentinel while an instruction
memory write sits in the queue. -/
def imemAtBoundsStep : SimStep := ⟨3, [⟨0, 7, none⟩], [], []⟩

/-- A step inside bounds carrying an instruction-memory write. -/
def imemInBoundsStep : SimStep := ⟨0, [⟨0, 7, none⟩], [], []⟩

/-- Evaluator fixture: register file holding 0x10 at index 2. -/
def fixStore : FinalStore := fun b =>
  match b with
  | MemBlock.rf => [(2, 0x10)]
  | MemBlock.d_mem => []

/-- Evaluator fixture: one passing valid assertion and one invalid one. -/
def fixAsserts : List AResult :=
  [AResult.valid MemBlock.rf 2 0x10 (("s1")), AResult.invalid (("s2"))]

/-! Helper lemmas. -/

/-- The assertion-collection loop parses exactly the assertion lines of
the file, in source order, and no result short of a raised exception
stops it. -/
theorem collectAssertions_eq_parseAll (ls : List String) :
    collectAssertions ls = parseAll (ls.filter isAssertLine) := by
  induction ls with
  | nil => rfl
  | cons l ls ih =>
    cases h : isAssertLine l with
    | true =>
      cases hp : parse_assertion (lstripHash l) with
      | error e => simp [collectAssertions, parseAll, h, hp, List.filter_cons]
      | ok a => simp [collectAssertions, parseAll, h, hp, ih, List.filter_cons]
    | false => simp [collectAssertions, h, ih, List.filter_cons]

/-- A successfully loaded test case is an augmented test case. -/
theorem loadGroup_shape (g : TestGroup) (t : TestCase)
    (h : loadGroup g = Except.ok (some t)) :
    ∃ instrs assembly asserts, t = augment g.name instrs assembly asserts := by
  unfold loadGroup at h
  cases hI : loadInstructions g.source with
  | error e => rw [hI] at h; simp at h
  | ok o =>
    rw [hI] at h
    cases o with
    | none => simp at h
    | some instrs =>
      cases hA : collectAssertions (g.infoLines.map pyStrip) with
      | error e => rw [hA] at h; simp at h
      | ok asserts =>
        rw [hA] at h
        simp at h
        exact ⟨instrs, parseAssembly (g.infoLines.map pyStrip), asserts, h.symm⟩

/-- Every test case read_tests returns comes from a successful
loadGroup. -/
theorem read_tests_mem (gs : List TestGroup) :
    ∀ ts : List TestCase, read_tests gs = Except.ok ts → ∀ t ∈ ts,
      ∃ g, loadGroup g = Except.ok (some t) := by
  induction gs with
  | nil =>
    intro ts h t ht
    simp [read_tests] at h
    subst h
    simp at ht
  | cons g gs ih =>
    intro ts h t ht
    unfold read_tests at h
    cases hg : loadGroup g with
    | error e => rw [hg] at h; simp at h
    | ok o =>
      rw [hg] at h
      cases o with
      | none => exact ih ts h t ht
      | some t0 =>
        cases hr : read_tests gs with
        | error e => rw [hr] at h; simp at h
        | ok ts0 =>
          rw [hr] at h
          simp at h
          subst h
          rcases List.mem_cons.mp ht with heq | hmem
          · exact ⟨g, by rw [hg, heq]⟩
          · exact ih ts0 hr t hmem

/-- assertionPasses on the invalid variant. -/
theorem assertionPasses_invalid (store : FinalStore) (s : String) :
    assertionPasses store (AResult.invalid s) = false := rfl

/-- assertionPasses on the valid variant. -/
theorem assertionPasses_valid (store : FinalStore) (b : MemBlock) (i v : Int) (s : String) :
    assertionPasses store (AResult.valid b i v s) =
      decide (((storeLookup (store b) i).getD 0 : Int) = v) := rfl

/-- isValid on the invalid variant. -/
theorem isValid_invalid (s : String) : (AResult.invalid s).isValid = false := rfl

/-- isValid on the valid variant. -/
theorem isValid_valid (b : MemBlock) (i v : Int) (s : String) :
    (AResult.valid b i v s).isValid = true := rfl

/-- The counting loop computes the filter counts, for any initial
accumulator. -/
theorem evalCounts_go (store : FinalStore) (asserts : List AResult) :
    ∀ p v : Nat,
      asserts.foldl (evalStep store) (p, v) =
        (p + (asserts.filter (fun a => assertionPasses store a)).length,
         v + (asserts.filter (fun a => AResult.isValid a)).length) := by
  induction asserts with
  | nil => intro p v; simp
  | cons a l ih =>
    intro p v
    rw [List.foldl_cons]
    cases a with
    | invalid s =>
      have hstep : evalStep store (p, v) (AResult.invalid s) = (p, v) := rfl
      rw [hstep, ih p v]
      simp [List.filter_cons, assertionPasses_invalid, isValid_invalid]
    | valid b i v0 s =>
      by_cases hc : ((storeLookup (store b) i).getD 0 : Int) = v0
      · have hstep : evalStep store (p, v) (AResult.valid b i v0 s) = (p + 1, v + 1) := by
          simp [evalStep, hc]
        rw [hstep, ih (p + 1) (v + 1)]
        simp [List.filter_cons, assertionPasses_valid, isValid_valid, hc, Prod.ext_iff]
        omega
      · have hstep : evalStep store (p, v) (AResult.valid b i v0 s) = (p, v + 1) := by
          simp [evalStep, hc]
        rw [hstep, ih p (v + 1)]
        simp [List.filter_cons, assertionPasses_valid, isValid_valid, hc, Prod.ext_iff]
        omega

/-- The pair of counters of the evaluator equals the filter counts. -/
theorem evalCounts_spec (store : FinalStore) (asserts : List AResult) :
    evalCounts store asserts =
      ((asserts.filter (fun a => assertionPasses store a)).length,
       (asserts.filter (fun a => AResult.isValid a)).length) := by
  have h := evalCounts_go store asserts 0 0
  simpa [evalCounts] using h

/-! Claim theorems. -/

/-- C1: the claim says every string matching the assertion grammar -
whose index, value and operand tokens may be decimal or 0x-prefixed
hexadecimal integers, optionally negative - parses, without raising, to
a Valid assertion.  The code violates this: the string below matches the
grammar with the negative hexadecimal value token -0x1, but int_or_hex
only routes strings that start with the 0x prefix to base-16 int, so the
leading minus sign sends -0x1 to base-10 int, which raises ValueError. -/
theorem c1_negative_hex_matches_but_raises :
    (matchAssert (("assert(sim.inspect_mem(rf)[0] == -0x1)"))).isSome = true ∧
      parse_assertion (("assert(sim.inspect_mem(rf)[0] == -0x1)")) =
        Except.error PyErr.valueError :=
  ⟨rfl, rfl⟩

/-- C2: the claim says read_tests is per-test resilient for every
malformed companion content, including a combined-format file whose
decoded JSON instruction map is empty, and never raises.  The code
violates the empty-map case: max() over the empty key sequence raises an
uncaught ValueError, aborting the whole batch (the well-formed group
behind it is lost).  The second conjunct shows the per-test skip the
claim describes does hold for a multi-file group with unparseable hex. -/
theorem c2_empty_combined_map_aborts_batch :
    read_tests [gGood, gEmptyMap, gGood2] = Except.error PyErr.valueError ∧
      read_tests [gHexBad, gGood] = Except.ok [tGood] :=
  ⟨rfl, rfl⟩

/-- C8: every assertion string that fails ASSERT_REGEX.fullmatch yields
the Invalid result carrying the raw text, without raising, and the
surrounding collection loop parses every assertion line of the file in
source order - an Invalid result never terminates it. -/
theorem c8_invalid_never_raises_never_stops :
    (∀ s : String, matchAssert s = none →
        parse_assertion s = Except.ok (AResult.invalid s)) ∧
      (∀ lines : List String,
        collectAssertions lines = parseAll (lines.filter isAssertLine)) := by
  constructor
  · intro s h
    unfold parse_assertion
    rw [h]
  · exact collectAssertions_eq_parseAll

/-- C8 witness: a non-matching string parses to Invalid, and a file
whose assertion lines are one malformed and one well-formed assertion is
collected whole, in order. -/
theorem c8_invalid_never_raises_never_stops_witness :
    parse_assertion (("not an assertion")) =
        Except.ok (AResult.invalid (("not an assertion"))) ∧
      collectAssertions [("#assert(bogus)"), ("assert(sim.inspect_mem(rf)[1] == 2)")] =
        parseAll [("#assert(bogus)"), ("assert(sim.inspect_mem(rf)[1] == 2)")] :=
  ⟨c8_invalid_never_raises_never_stops.1 (("not an assertion")) rfl,
   (c8_invalid_never_raises_never_stops.2
     [("#assert(bogus)"), ("assert(sim.inspect_mem(rf)[1] == 2)")]).trans rfl⟩

/-- C9: DictWatcher is observationally a plain dict: getitem returns
exactly the plain-dict value whatever the installed getitem listeners
do; setitem stores exactly the plain-dict insertion, independently of
the installed setitem listeners and of any exceptions they raise; and
the effect trace of setitem performs the store strictly before any
listener notification, each listener receiving the pre-write old value. -/
theorem c9_dictwatcher_refines_plain_dict :
    (∀ (w : DictWatcher Nat Nat) (k : Nat), (w.getitem k).1 = dictGet w.store k) ∧
      (∀ (w : DictWatcher Nat Nat) (k : Nat) (L : List (Nat → LOutcome)),
        (DictWatcher.getitem { w with getitemListeners := L } k).1 = (w.getitem k).1) ∧
      (∀ (w : DictWatcher Nat Nat) (k v : Nat),
        ((w.setitem k v).1).store = dictInsert w.store k v) ∧
      (∀ (w : DictWatcher Nat Nat) (k v : Nat)
          (L : List (Nat → Nat → Option Nat → LOutcome)),
        ((DictWatcher.setitem { w with setitemListeners := L } k v).1).store =
          ((w.setitem k v).1).store) ∧
      (∀ (w : DictWatcher Nat Nat) (k v : Nat),
        (w.setitem k v).2 =
          WAction.stored k v ::
            w.setitemListeners.map (fun f => WAction.notified (f k v (dictGet w.store k)))) :=
  ⟨fun _ _ => rfl, fun _ _ _ => rfl, fun _ _ _ => rfl, fun _ _ _ _ => rfl, fun _ _ _ => rfl⟩

/-- The set-fold of the combined loader keeps the list length. -/
theorem foldlSet_length (entries : List (Nat × Nat)) :
    ∀ init : List Nat,
      (entries.foldl (fun l av => l.set av.1 av.2) init).length = init.length := by
  induction entries with
  | nil => intro init; rfl
  | cons p ps ih => intro init; rw [List.foldl_cons, ih, List.length_set]

/-- The set-fold leaves indices outside the written key set unchanged. -/
theorem foldlSet_getElem_not_mem (entries : List (Nat × Nat)) :
    ∀ (init : List Nat) (a : Nat), a ∉ entries.map Prod.fst →
      (entries.foldl (fun l av => l.set av.1 av.2) init)[a]? = init[a]? := by
  induction entries with
  | nil => intro init a _; rfl
  | cons p ps ih =>
    intro init a h
    rw [List.map_cons] at h
    have h1 : a ≠ p.1 := fun he => h (by rw [he]; exact List.Mem.head _)
    have h2 : a ∉ ps.map Prod.fst := fun hm => h (List.Mem.tail _ hm)
    rw [List.foldl_cons, ih (init.set p.1 p.2) a h2,
      List.getElem?_set_ne (Ne.symm h1)]

/-- With duplicate-free keys, the set-fold writes every binding at its
address. -/
theorem foldlSet_getElem_mem (entries : List (Nat × Nat)) :
    ∀ (init : List Nat) (k v : Nat), (entries.map Prod.fst).Nodup →
      (k, v) ∈ entries → k < init.length →
      (entries.foldl (fun l av => l.set av.1 av.2) init)[k]? = some v := by
  induction entries with
  | nil => intro init k v _ hm; simp at hm
  | cons p ps ih =>
    intro init k v hnd hm hk
    rw [List.map_cons] at hnd
    have hnd' := List.nodup_cons.mp hnd
    rw [List.foldl_cons]
    rcases List.mem_cons.mp hm with heq | hmem
    · obtain ⟨pk, pv⟩ := p
      injection heq with hek hev
      subst hek
      subst hev
      rw [foldlSet_getElem_not_mem ps (init.set k v) k hnd'.1,
        List.getElem?_set_eq_of_lt v hk]
    · exact ih (init.set p.1 p.2) k v hnd'.2 hmem (by rw [List.length_set]; exact hk)

/-- The fold of Nat.max dominates its initial value. -/
theorem le_foldl_max (l : List Nat) : ∀ a : Nat, a ≤ l.foldl Nat.max a := by
  induction l with
  | nil => intro a; exact Nat.le_refl a
  | cons b l ih =>
    intro a
    exact Nat.le_trans (Nat.le_max_left a b) (ih (Nat.max a b))

/-- The fold of Nat.max dominates every list element. -/
theorem mem_le_foldl_max (l : List Nat) :
    ∀ (a x : Nat), x ∈ l → x ≤ l.foldl Nat.max a := by
  induction l with
  | nil => intro a x hx; simp at hx
  | cons b l ih =>
    intro a x hx
    rcases List.mem_cons.mp hx with he | hm
    · subst he
      exact Nat.le_trans (Nat.le_max_right a x) (le_foldl_max l (Nat.max a x))
    · exact ih (Nat.max a b) x hm

/-- Every key of the decoded map is bounded by maxKey. -/
theorem key_le_maxKey (entries : List (Nat × Nat)) (p : Nat × Nat)
    (hp : p ∈ entries) : p.1 ≤ maxKey entries :=
  mem_le_foldl_max (entries.map Prod.fst) 0 p.1 (List.mem_map_of_mem Prod.fst hp)

/-- C6: the evaluator counts a pass exactly for the valid assertions
whose observed value (the stored value at the block and index,
defaulting to 0 when never written) equals the folded expected value;
invalid assertions are marked unevaluated and excluded from the
denominator; with at least one valid assertion the summary carries the
percentage 100 * passed / valid over valid assertions only; with none,
an error summary distinguishes an empty assertion list from an
all-malformed one. -/
theorem c6_evaluator_counts_and_summary (store : FinalStore) (asserts : List AResult) :
    (evaluateAssertions store asserts).passed =
        (asserts.filter (fun a => assertionPasses store a)).length ∧
      (evaluateAssertions store asserts).valid =
        (asserts.filter (fun a => AResult.isValid a)).length ∧
      (evaluateAssertions store asserts).total = asserts.length ∧
      (evaluateAssertions store asserts).marks = asserts.map (resultMark store) ∧
      (∀ s : String, resultMark store (AResult.invalid s) = ("!!")) ∧
      ((evaluateAssertions store asserts).valid ≠ 0 →
        (evaluateAssertions store asserts).summary =
          Summary.percent
            ((100 * ((evaluateAssertions store asserts).passed : ℚ)) /
              ((evaluateAssertions store asserts).valid : ℚ))
            (asserts.length - (evaluateAssertions store asserts).valid)
            (decide (asserts.length - (evaluateAssertions store asserts).valid = 0) &&
              decide ((evaluateAssertions store asserts).passed = asserts.length))) ∧
      ((evaluateAssertions store asserts).valid = 0 → asserts.length = 0 →
        (evaluateAssertions store asserts).summary = Summary.noAssertions) ∧
      ((evaluateAssertions store asserts).valid = 0 → asserts.length ≠ 0 →
        (evaluateAssertions store asserts).summary = Summary.noValidAssertions) := by
  refine ⟨?_, ?_, rfl, rfl, fun s => rfl, ?_, ?_, ?_⟩
  · simp [evaluateAssertions, evalCounts_spec]
  · simp [evaluateAssertions, evalCounts_spec]
  · intro hv
    simp only [evaluateAssertions, evalCounts_spec] at hv ⊢
    simp [summarize, hv]
  · intro hv ht
    simp only [evaluateAssertions, evalCounts_spec] at hv ⊢
    simp [summarize, hv, ht]
  · intro hv ht
    simp only [evaluateAssertions, evalCounts_spec] at hv ⊢
    simp [summarize, hv, ht]

/-- C6 witness: a register file holding 0x10 at index 2, one valid
passing assertion and one invalid assertion: one pass out of one valid
assertion, two assertions in total, and the percentage summary reports
100 percent with one invalid assertion and no congratulation. -/
theorem c6_evaluator_counts_and_summary_witness :
    (evaluateAssertions fixStore fixAsserts).passed = 1 ∧
      (evaluateAssertions fixStore fixAsserts).valid = 1 ∧
      (evaluateAssertions fixStore fixAsserts).summary = Summary.percent 100 1 false := by
  have h := c6_evaluator_counts_and_summary fixStore fixAsserts
  have hp : (evaluateAssertions fixStore fixAsserts).passed = 1 := (h.1).trans (by decide)
  have hv1 : (evaluateAssertions fixStore fixAsserts).valid = 1 := (h.2.1).trans (by decide)
  have hs := h.2.2.2.2.2.1 (by decide)
  rw [hp, hv1] at hs
  have hlen : fixAsserts.length = 2 := rfl
  rw [hlen] at hs
  refine ⟨hp, hv1, hs.trans ?_⟩
  congr 1
  norm_num

/-- C7: every test case that read_tests successfully loads satisfies
len(instructions) = out_of_bounds + 1; the part of the instruction list
past the recorded pre-augmentation end is exactly the one synthetic
no-op word 0x20000000, and the assembly ends in exactly the one
synthetic line in the reserved section. -/
theorem c7_out_of_bounds_invariant (gs : List TestGroup) (ts : List TestCase)
    (h : read_tests gs = Except.ok ts) :
    ∀ t ∈ ts,
      t.instructions.length = t.out_of_bounds + 1 ∧
        t.instructions.drop t.out_of_bounds = [0x20000000] ∧
        t.assembly.getLast? = some nopAsmLine := by
  intro t ht
  obtain ⟨g, hg⟩ := read_tests_mem gs ts h t ht
  obtain ⟨instrs, assembly, asserts, rfl⟩ := loadGroup_shape g t hg
  refine ⟨?_, ?_, ?_⟩
  · simp [augment]
  · simp only [augment]
    exact List.drop_left instrs [0x20000000]
  · simp only [augment]
    exact List.getLast?_concat assembly

/-- C7 witness: the loaded fixture test has two instructions, sentinel
index 1, the synthetic no-op past it, and the synthetic assembly line
last. -/
theorem c7_out_of_bounds_invariant_witness :
    tGood.instructions.length = tGood.out_of_bounds + 1 ∧
      tGood.instructions.drop tGood.out_of_bounds = [0x20000000] ∧
      tGood.assembly.getLast? = some nopAsmLine :=
  c7_out_of_bounds_invariant [gGood] [tGood] rfl tGood (List.Mem.head _)

/-- C10: for a non-empty decoded instruction map (its keys are
addresses, duplicate-free as the keys of a decoded JSON dictionary
are), the combined loader builds a list of length max(address) + 1
holding every mapped word at its address and the word 0 at every gap,
and the surrounding loader accepts it rather than treating gaps as a
load error. -/
theorem c10_combined_zero_fills_gaps (entries : List (Nat × Nat))
    (hne : entries ≠ []) (hnd : (entries.map Prod.fst).Nodup) :
    (combinedInstructions entries).length = maxKey entries + 1 ∧
      (∀ p ∈ entries, (combinedInstructions entries)[p.1]? = some p.2) ∧
      (∀ a : Nat, a ≤ maxKey entries → a ∉ entries.map Prod.fst →
        (combinedInstructions entries)[a]? = some 0) ∧
      (∀ name : String,
        loadGroup ⟨name, InstSource.combined (DecodeOutcome.ok entries), []⟩ =
          Except.ok (some (augment name (combinedInstructions entries) [] []))) := by
  have hemp : entries.isEmpty = false := by
    cases entries with
    | nil => exact absurd rfl hne
    | cons p ps => rfl
  refine ⟨?_, ?_, ?_, ?_⟩
  · rw [combinedInstructions, foldlSet_length, List.length_replicate]
  · intro p hp
    obtain ⟨pk, pv⟩ := p
    exact foldlSet_getElem_mem entries _ pk pv hnd hp
      (by rw [List.length_replicate]
          exact Nat.lt_succ_of_le (key_le_maxKey entries (pk, pv) hp))
  · intro a ha hnm
    rw [combinedInstructions, foldlSet_getElem_not_mem entries _ a hnm]
    rw [List.getElem?_eq_getElem (by rw [List.length_replicate]; exact Nat.lt_succ_of_le ha)]
    rw [List.getElem_replicate]
  · intro name
    simp [loadGroup, loadInstructions, hemp, collectAssertions, parseAssembly,
      parseAssemblyAux]

/-- C10 witness: the two-entry map writing 7 at address 2 and 5 at
address 0 yields the three-word list with a zero-filled gap at
address 1. -/
theorem c10_combined_zero_fills_gaps_witness :
    (combinedInstructions [(2, 7), (0, 5)]).length = maxKey [(2, 7), (0, 5)] + 1 ∧
      (combinedInstructions [(2, 7), (0, 5)])[2]? = some 7 ∧
      (combinedInstructions [(2, 7), (0, 5)])[1]? = some 0 := by
  have h := c10_combined_zero_fills_gaps [(2, 7), (0, 5)] (by decide) (by decide)
  exact ⟨h.1, h.2.1 (2, 7) (List.Mem.head _), h.2.2.1 1 (by decide) (by decide)⟩

/-- C4: on every step the loop reaches, a program counter at or past
out_of_bounds halts the run as bounds-halted immediately after the
simulator advance: nothing of that step is traced, no queue of that
step is drained, the loop heuristic is not consulted (the result does
not depend on the step's updates, on the visited set, or on the rest of
the run), exactly the bounds message is printed - plus a warning, with
no other difference, when the pc is strictly past the sentinel.
Concretely, a program with out_of_bounds 3 halts bounds-halted at the
first step at which the pc is 3, here the fourth step. -/
theorem c4_bounds_halt_is_immediate :
    (∀ (cfg : RunCfg) (s : SimStep) (rest : List SimStep) (seen : List Nat),
      cfg.out_of_bounds ≤ s.pc →
        runFrom cfg (s :: rest) seen =
          (LoopRes.bounds (decide (cfg.out_of_bounds < s.pc)),
           boundsEvents (decide (cfg.out_of_bounds < s.pc)), 1)) ∧
      run_test boundsCfg boundsSteps =
        (RunState.haltedBounds,
         some (evaluateAssertions (storeAfter boundsSteps) boundsCfg.assertions)) ∧
      (runFrom boundsCfg boundsSteps []).1 = LoopRes.bounds false ∧
      (runFrom boundsCfg boundsSteps []).2.2 = 4 := by
  refine ⟨?_, rfl, rfl, rfl⟩
  intro cfg s rest seen h
  simp only [runFrom]
  rw [if_pos h]

/-- C4 witness: a step whose pc 5 is strictly past the sentinel 3 halts
bounds-halted with the warning, whatever sits in the queues and in the
visited set. -/
theorem c4_bounds_halt_is_immediate_witness :
    runFrom boundsCfg [⟨5, [], [⟨0, 1, none⟩], []⟩] [0, 1] =
      (LoopRes.bounds true, [Event.boundsMsg, Event.boundsWarn], 1) := by
  have h := c4_bounds_halt_is_immediate.1 boundsCfg ⟨5, [], [⟨0, 1, none⟩], []⟩ []
    [0, 1] (by decide)
  simpa [boundsEvents] using h

/-- C3: on every step the loop reaches with an in-bounds pc and a
successful drain, the heuristic behaves as claimed: a pc already in the
visited-since-last-real-write set halts the run as loop-halted; an
unseen pc continues the run, with the set cleared when some drained
(necessarily non-instruction) update changed a value and the pc added
to the set otherwise.  Consequently every run with pc sequence
0,1,2,1,2,1,2, arbitrary real-write behaviour on the first three cycles
and no value-changing write afterwards, halts loop-halted, within six
steps - by the second repeated visit to a previously seen write-free
pc. -/
theorem c3_loop_heuristic :
    (∀ (cfg : RunCfg) (s : SimStep) (rest : List SimStep) (seen : List Nat)
        (evs : List Event) (aw : Bool) (line : AsmLine) (word : Nat),
      s.pc < cfg.out_of_bounds →
      cfg.assembly[s.pc]? = some line →
      cfg.instructions[s.pc]? = some word →
      drainStep s = DrainRes.ok evs aw →
        ((s.pc ∈ seen →
          runFrom cfg (s :: rest) seen =
            (LoopRes.loop, Event.traceLine s.pc line word :: (evs ++ [Event.loopMsg]), 1)) ∧
         (s.pc ∉ seen →
          runFrom cfg (s :: rest) seen =
            ((runFrom cfg rest (if aw then [] else s.pc :: seen)).1,
             Event.traceLine s.pc line word ::
               (evs ++ (runFrom cfg rest (if aw then [] else s.pc :: seen)).2.1),
             (runFrom cfg rest (if aw then [] else s.pc :: seen)).2.2 + 1)))) ∧
      (∀ w0 w1 w2 : Bool,
        (runFrom loopCfg (loopSteps w0 w1 w2) []).1 = LoopRes.loop ∧
          (runFrom loopCfg (loopSteps w0 w1 w2) []).2.2 ≤ 6) := by
  constructor
  · intro cfg s rest seen evs aw line word hpc hline hword hdrain
    have hnle : ¬ cfg.out_of_bounds ≤ s.pc := Nat.not_le.mpr hpc
    constructor
    · intro hmem
      simp only [runFrom]
      rw [if_neg hnle, hline, hword]
      simp only [hdrain]
      rw [if_pos hmem]
    · intro hmem
      simp only [runFrom]
      rw [if_neg hnle, hline, hword]
      simp only [hdrain]
      rw [if_neg hmem]
  · intro w0 w1 w2
    cases w0 <;> cases w1 <;> cases w2 <;> exact ⟨rfl, by decide⟩

/-- C3 witness: a step whose pc is already in the visited set halts the
run loop-halted; and the concrete write-free run with pc sequence
0,1,2,1,2,1,2 halts loop-halted. -/
theorem c3_loop_heuristic_witness :
    runFrom loopCfg [⟨0, [], [], []⟩] [0] =
        (LoopRes.loop, [Event.traceLine 0 fixAsm 0, Event.loopMsg], 1) ∧
      (runFrom loopCfg (loopSteps false false false) []).1 = LoopRes.loop := by
  constructor
  · have h := (c3_loop_heuristic.1 loopCfg ⟨0, [], [], []⟩ [] [0] [] false fixAsm 0
      (by decide) rfl rfl rfl).1 (List.Mem.head _)
    simpa using h
  · exact (c3_loop_heuristic.2 false false false).1

/-- C5 counterexample: the claim says every update recorded against
instruction memory during the step loop is fatal, aborting with the
error state before evaluation.  It fails when the write is recorded at
the very step at which the pc reaches out_of_bounds: the bounds check
runs before the queues are drained, so the run below - whose single
step records an instruction-memory write - halts bounds-halted and
evaluation is reached. -/
theorem c5_imem_write_not_always_fatal :
    imemAtBoundsStep.imemUps ≠ [] ∧
      (run_test boundsCfg [imemAtBoundsStep]).1 = RunState.haltedBounds ∧
      (run_test boundsCfg [imemAtBoundsStep]).1 ≠ RunState.haltedError ∧
      ((run_test boundsCfg [imemAtBoundsStep]).2).isSome = true := by
  exact ⟨by decide, rfl, by decide, rfl⟩

/-- C5 (amended): an instruction-memory update the step loop drains -
one recorded at a step where the bounds check does not halt the run
first and the trace line succeeds - is fatal for every address and
value: the loop aborts at that step with the fatal result, and no run
whose loop ends in the fatal result ever reaches assertion evaluation
(it halts in the error state with no report).  An instruction-memory
update recorded at the step at which the pc leaves bounds is never
drained. -/
theorem c5_imem_write_fatal_when_drained :
    (∀ (cfg : RunCfg) (s : SimStep) (rest : List SimStep) (seen : List Nat)
        (line : AsmLine) (word : Nat),
      s.pc < cfg.out_of_bounds →
      cfg.assembly[s.pc]? = some line →
      cfg.instructions[s.pc]? = some word →
      s.imemUps ≠ [] →
        (runFrom cfg (s :: rest) seen).1 = LoopRes.imemFatal) ∧
      (∀ (cfg : RunCfg) (steps : List SimStep),
        (runFrom cfg steps []).1 = LoopRes.imemFatal →
          run_test cfg steps = (RunState.haltedError, none)) := by
  constructor
  · intro cfg s rest seen line word hpc hline hword himem
    have hnle : ¬ cfg.out_of_bounds ≤ s.pc := Nat.not_le.mpr hpc
    have hfatal : ∃ a v, drainStep s = DrainRes.fatal a v := by
      cases hu : s.imemUps with
      | nil => exact absurd hu himem
      | cons u us => exact ⟨u.addr, u.value, by simp [drainStep, hu]⟩
    obtain ⟨a, v, hdrain⟩ := hfatal
    simp only [runFrom]
    rw [if_neg hnle, hline, hword]
    simp only [hdrain]
  · intro cfg steps h
    simp only [run_test]
    rw [h]

/-- C5 witness (for the amended claim): a single in-bounds step carrying
an instruction-memory write makes the loop abort fatally, and the run
halts in the error state with no evaluation report. -/
theorem c5_imem_write_fatal_when_drained_witness :
    (runFrom boundsCfg [imemInBoundsStep] []).1 = LoopRes.imemFatal ∧
      run_test boundsCfg [imemInBoundsStep] = (RunState.haltedError, none) := by
  have h1 := c5_imem_write_fatal_when_drained.1 boundsCfg imemInBoundsStep [] []
    fixAsm 1 (by decide) rfl rfl (by decide)
  exact ⟨h1, c5_imem_write_fatal_when_drained.2 boundsCfg [imemInBoundsStep] h1⟩

end Tester
